import Mathlib

/-!
Verification of the extraction/normalization core of the Copilot chat
extractor (`src/chatExtractor.ts`), as a shallow embedding in Lean 4.

Modelling conventions:
* JSON values (the result of `JSON.parse`) are modelled by the inductive
  `Json`.  JavaScript `undefined` (the result of reading an absent
  property) is modelled by `Option Json` with `none` for `undefined`.
* JavaScript truthiness is modelled by `truthy`.
* A thrown `TypeError` (property access on `null`, calling a string
  method on a non-string) is modelled by `Except Unit`, with `.error ()`
  standing for the exception.  Code that the source wraps in
  `try`/`catch` absorbs the `.error` case exactly where the source does.
* JSON numbers are modelled as `Int` (the claims under study never
  depend on fractional timestamps).
* `===`/`Set.has` comparison of ids is modelled by `jsSame`: structural
  on primitives, and `false` on two objects/arrays, since every object
  or array flowing through the pipeline comes from a distinct
  `JSON.parse` allocation and is therefore a distinct reference.
-/

inductive Json where
  | null
  | bool (b : Bool)
  | num (n : Int)
  | str (s : String)
  | arr (elems : List Json)
  | obj (fields : List (String × Json))

/-- JavaScript truthiness of a JSON value. -/
def truthy : Json → Bool
  | .null => false
  | .bool b => b
  | .num n => n != 0
  | .str s => s != ""
  | .arr _ => true
  | .obj _ => true

/-- Truthiness of a possibly-`undefined` value. -/
def truthyO : Option Json → Bool
  | none => false
  | some v => truthy v

/-- `typeof v === 'object'` (true for objects, arrays and `null`). -/
def isTypeofObject : Json → Bool
  | .null => true
  | .arr _ => true
  | .obj _ => true
  | _ => false

/-- SameValueZero / `===` on values reachable as session ids: structural on
primitives; two distinct objects or arrays are distinct references. -/
def jsSame : Json → Json → Bool
  | .null, .null => true
  | .bool a, .bool b => a == b
  | .num a, .num b => a == b
  | .str a, .str b => a == b
  | _, _ => false

/-- First field with the given key (JSON.parse output has no duplicate keys). -/
def lookupField : List (String × Json) → String → Option Json
  | [], _ => none
  | (k, v) :: fs, key => if k == key then some v else lookupField fs key

/-- Property read `j[key]`, at call sites where `j` is known not to be
`null`.  Primitives have none of the probed properties; arrays have none
of them either. -/
def getF : Json → String → Option Json
  | .obj fs, key => lookupField fs key
  | _, _ => none

/-- Property read `j[key]` where `j` may be `null`: `null[key]` throws. -/
def getFE (j : Json) (key : String) : Except Unit (Option Json) :=
  match j with
  | .null => .error ()
  | _ => .ok (getF j key)

/-- JavaScript `a || b` on possibly-undefined values: the left value if
truthy, otherwise the right value as-is. -/
def jsOr (a b : Option Json) : Option Json :=
  match a with
  | some v => if truthy v then some v else b
  | none => b

/-- JavaScript `a || d` with a guaranteed-present default. -/
def jsOrDefault (a : Option Json) (d : Json) : Json :=
  match a with
  | some v => if truthy v then v else d
  | none => d

/-- JavaScript `String(v)` on JSON values (as performed by
`Array.prototype.join`); `null` elements inside an array stringify to
the empty string. -/
def jsString : Json → String
  | .null => "null"
  | .bool b => if b then "true" else "false"
  | .num n => toString n
  | .str s => s
  | .arr xs => String.intercalate "," (jsStringElems xs)
  | .obj _ => "[object Object]"
where jsStringElems : List Json → List String
  | [] => []
  | .null :: xs => "" :: jsStringElems xs
  | x :: xs => jsString x :: jsStringElems xs

/-- One element of the array branch of `extractContent`:
`item => { if (typeof item === 'string') return item;
           if (typeof item === 'object') return item.text || item.value || item.content || '';
           return ''; }`.
A `null` element has `typeof === 'object'` and `null.text` throws. -/
def extractContentElem : Json → Except Unit Json
  | .str s => .ok (.str s)
  | .null => .error ()
  | .arr _ => .ok (.str "")
  | .obj fs =>
      .ok (jsOrDefault (jsOr (jsOr (lookupField fs "text") (lookupField fs "value"))
                             (lookupField fs "content")) (.str ""))
  | _ => .ok (.str "")

/-- `extractContent(data)` from `chatExtractor.ts`.  The argument is
`Option Json` because callers pass property reads that may be
`undefined`. -/
def extractContent (data : Option Json) : Except Unit Json :=
  match data with
  | none => .ok (.str "")
  | some d =>
    if !truthy d then .ok (.str "") else
    match d with
    | .str s => .ok (.str s)
    | .arr xs => do
        let parts ← xs.mapM extractContentElem
        .ok (.str (String.intercalate "\n" (((parts.filter truthy).map jsString))))
    | .obj fs =>
        .ok (jsOrDefault (jsOr (jsOr (jsOr (lookupField fs "text") (lookupField fs "value"))
                                     (lookupField fs "content")) (lookupField fs "message"))
                         (.str ""))
    | _ => .ok (.str "")

inductive Role where
  | user
  | assistant
  | system
  | unknown
deriving DecidableEq

inductive Source where
  | json
  | sqlite
deriving DecidableEq

/-- The `ChatMessage` record (`types.ts`).  `content` is kept as a raw
`Json` value because `extractContent` can return a non-string field value
verbatim; in well-formed data it is a string. -/
structure ChatMessage where
  role : Role
  content : Json
  timestamp : Option Json := none
  toolCalls : Option Json := none
  toolResults : Option Json := none
  rawData : Option Json := none

/-- `a || b || c || ''`: the first truthy of three possibly-undefined
values, or the empty string. -/
def jsOr3OrEmpty (a b c : Option Json) : Json :=
  jsOrDefault (jsOr (jsOr a b) c) (.str "")

/-- The "determine role" section of `parseMessage`:
`const roleValue = data.role || data.type || data.kind || ''` followed by
the case-sensitive alias lists. -/
def roleOf (data : Json) : Role :=
  let roleValue := jsOr3OrEmpty (getF data "role") (getF data "type") (getF data "kind")
  if jsSame roleValue (.str "user") || jsSame roleValue (.str "human")
      || jsSame roleValue (.str "User") then .user
  else if jsSame roleValue (.str "assistant") || jsSame roleValue (.str "bot")
      || jsSame roleValue (.str "copilot") || jsSame roleValue (.str "Assistant")
      || jsSame roleValue (.str "ai") then .assistant
  else if jsSame roleValue (.str "system") then .system
  else .unknown

/-- The "extract content" section of `parseMessage`:
`extractContent(data.content) || extractContent(data.text) ||
extractContent(data.value) || extractContent(data.message)`, with
JavaScript short-circuiting (a later call is not evaluated once an
earlier one is truthy). -/
def contentOf (data : Json) : Except Unit Json := do
  let c1 ← extractContent (getF data "content")
  if truthy c1 then pure c1 else do
  let c2 ← extractContent (getF data "text")
  if truthy c2 then pure c2 else do
  let c3 ← extractContent (getF data "value")
  if truthy c3 then pure c3 else
  extractContent (getF data "message")

/-- `parseMessage(data)` from `chatExtractor.ts`. -/
def parseMessage (data : Json) : Except Unit (Option ChatMessage) :=
  if !truthy data || !isTypeofObject data then .ok none
  else do
    let content ← contentOf data
    if !truthy content && roleOf data == .unknown then pure none
    else pure (some {
      role := roleOf data
      content := content
      timestamp := jsOr (getF data "timestamp") (getF data "date")
      toolCalls := getF data "toolCalls"
      toolResults := getF data "toolResults"
      rawData := some data })

/-- Synthetic user message pushed from the request side of a
request/response pair (no `rawData`, no tool fields). -/
def mkSyntheticMsg (role : Role) (content : Json) (timestamp : Option Json) : ChatMessage :=
  { role := role, content := content, timestamp := timestamp }

/-- `typeof request === 'string' ? request : extractContent(request)`. -/
def reqContent (request : Json) : Except Unit Json :=
  match request with
  | .str s => pure (Json.str s)
  | _ => extractContent (some request)

/-- `if (item.request || item.message) { ... }` in `parseMessages`:
maybe push a synthetic user message. -/
def requestStep (item : Json) (acc : List ChatMessage) : Except Unit (List ChatMessage) :=
  match jsOr (getF item "request") (getF item "message") with
  | some request =>
    if truthy request then
      reqContent request >>= fun userContent =>
        if truthy userContent then
          pure (acc ++ [mkSyntheticMsg .user userContent (getF request "timestamp")])
        else pure acc
    else pure acc
  | none => pure acc

/-- The assistant-content computation of `parseMessages`: a string
response verbatim; an array response mapped through
`typeof r === 'string' ? r : extractContent(r)`, filtered by truthiness
and joined with newlines; anything else through `extractContent`. -/
def respContent (response : Json) : Except Unit Json :=
  match response with
  | .str s => pure (Json.str s)
  | .arr rs =>
      (rs.mapM (fun r => match r with
        | .str s => pure (Json.str s)
        | _ => extractContent (some r))) >>= fun parts =>
        pure (Json.str (String.intercalate "\n" ((parts.filter truthy).map jsString)))
  | _ => extractContent (some response)

/-- `if (item.response || item.result) { ... }` in `parseMessages`:
maybe push a synthetic assistant message. -/
def responseStep (item : Json) (acc : List ChatMessage) : Except Unit (List ChatMessage) :=
  match jsOr (getF item "response") (getF item "result") with
  | some response =>
    if truthy response then
      respContent response >>= fun assistantContent =>
        if truthy assistantContent then
          pure (acc ++ [mkSyntheticMsg .assistant assistantContent (getF response "timestamp")])
        else pure acc
    else pure acc
  | none => pure acc

/-- `if (!item.request && !item.response && !item.message && !item.result)`
in `parseMessages`: run the flat single-message parser and push its
result when it has truthy content. -/
def flatStep (item : Json) (acc : List ChatMessage) : Except Unit (List ChatMessage) :=
  if !truthyO (getF item "request") && !truthyO (getF item "response")
      && !truthyO (getF item "message") && !truthyO (getF item "result") then
    parseMessage item >>= pushParsed acc
  else pure acc
where
  /-- `if (msg && msg.content) messages.push(msg)`. -/
  pushParsed (acc : List ChatMessage) : Option ChatMessage → Except Unit (List ChatMessage)
  | some msg => if truthy msg.content then pure (acc ++ [msg]) else pure acc
  | none => pure acc

/-- The body of the `for (const item of data[key])` loop in
`parseMessages`, for one item, acting on the accumulated message list. -/
def processItem (acc : List ChatMessage) (item : Json) : Except Unit (List ChatMessage) :=
  if !truthy item || !isTypeofObject item then .ok acc
  else requestStep item acc >>= responseStep item >>= flatStep item

/-- The inner `for` loop of `parseMessages` over one container list. -/
def processItems (acc : List ChatMessage) : List Json → Except Unit (List ChatMessage)
  | [] => .ok acc
  | it :: its => do processItems (← processItem acc it) its

/-- The candidate message container keys, in probe order. -/
def messageContainers : List String :=
  ["messages", "history", "exchanges", "requests", "turns", "chatMessages"]

/-- `Array.isArray(v)`. -/
def isArray : Json → Bool
  | .arr _ => true
  | _ => false

/-- The element list of an array value. -/
def arrItems : Json → List Json
  | .arr items => items
  | _ => []

/-- The outer loop of `parseMessages` over the container keys:
`if (data[key] && Array.isArray(data[key]))` the container is processed;
once the accumulated list is non-empty after a processed container,
later keys are not tried (`break`). -/
def parseMessagesGo (data : Json) (acc : List ChatMessage) :
    List String → Except Unit (List ChatMessage)
  | [] => .ok acc
  | key :: keys =>
    getFE data key >>= fun v =>
      if truthyO v && isArray (v.getD .null) then
        processItems acc (arrItems (v.getD .null)) >>= fun a =>
          if a.length > 0 then .ok a else parseMessagesGo data a keys
      else parseMessagesGo data acc keys

/-- `parseMessages(data)` from `chatExtractor.ts`. -/
def parseMessages (data : Json) : Except Unit (List ChatMessage) :=
  parseMessagesGo data [] messageContainers

/-- The slice of `WorkspaceInfo` consumed by the session builders. -/
structure WorkspaceMeta where
  workspaceId : String
  projectPath : Option String := none
  projectName : Option String := none

/-- The `ChatSession` record (`types.ts`).  `sessionId` and `title` are
kept as raw `Json` values: `data.sessionId || fallback` and the title
chain can select non-string field values verbatim. -/
structure ChatSession where
  sessionId : Json
  title : Json
  messages : List ChatMessage
  workspaceId : String
  workspaceName : String
  projectPath : Option String := none
  createdAt : Option Json := none
  modifiedAt : Option Int := none
  model : Option Json := none
  agentMode : Option Json := none
  source : Source
  filePath : Option String := none

/-- `workspace.projectName || 'Workspace ' + workspaceId.substring(0,8) + '...'`. -/
def workspaceNameOf (w : WorkspaceMeta) : String :=
  match w.projectName with
  | some s => if s != "" then s else "Workspace " ++ w.workspaceId.take 8 ++ "..."
  | none => "Workspace " ++ w.workspaceId.take 8 ++ "..."

/-- `content.substring(0, 60)` plus an ellipsis when truncated. -/
def titleTrunc (s : String) : String :=
  s.take 60 ++ (if s.length > 60 then "..." else "")

/-- Title resolution shared by `parseSessionFromFile` (keys
title/name/sessionTitle/customTitle) and `createSessionFromData` (keys
title/name/sessionTitle): explicit field chain, else first user message
truncated to 60 chars, else the caller's placeholder.  Calling
`.substring` on a non-string first-user-message content throws.
`data` is never `null` here: `parseMessages` has already thrown on
`null` in every caller. -/
def titleOf (data : Json) (keys : List String) (messages : List ChatMessage)
    (fallback : String) : Except Unit Json := do
  let t0 := keys.foldl (fun acc k => jsOr acc (getF data k)) none
  let t1 ← if truthyO t0 then pure t0
    else if messages.length > 0 then
      match messages.find? (fun m => m.role == Role.user) with
      | some m => match m.content with
        | .str s => pure (some (Json.str (titleTrunc s)))
        | _ => Except.error ()
      | none => pure t0
    else pure t0
  pure (jsOrDefault t1 (.str fallback))

/-- Abstract input for one transcript file: its path, its basename with
the `.json` extension stripped (`path.basename(filePath, '.json')`), the
result of `JSON.parse(fs.readFileSync(...))` (`none` when reading or
parsing threw), and the `fs.statSync` modified time (`none` when the stat
threw). -/
structure FileInput where
  filePath : String
  basename : String
  parsed : Option Json := none
  mtimeMs : Option Int := none

/-- `parseSessionFromFile(filePath, workspace)`: builds a `json`-sourced
session; every thrown error is caught and mapped to `null`. -/
def parseSessionFromFile (f : FileInput) (w : WorkspaceMeta) : Option ChatSession :=
  match f.parsed with
  | none => none
  | some data =>
    match (do
      let messages ← parseMessages data
      let title ← titleOf data ["title", "name", "sessionTitle", "customTitle"] messages
        ("Chat " ++ f.basename.take 8 ++ "...")
      let mtime ← match f.mtimeMs with
        | some t => Except.ok t
        | none => Except.error ()
      Except.ok {
        sessionId := Json.str f.basename
        title := title
        messages := messages
        workspaceId := w.workspaceId
        workspaceName := workspaceNameOf w
        projectPath := w.projectPath
        createdAt := jsOr (jsOr (jsOr (getF data "createdAt") (getF data "created"))
          (getF data "timestamp")) (getF data "creationDate")
        modifiedAt := some mtime
        model := jsOr (jsOr (getF data "model") (getF data "languageModel")) (getF data "modelId")
        agentMode := jsOr (jsOr (getF data "agentMode") (getF data "mode")) (getF data "agent")
        source := Source.json
        filePath := some f.filePath : ChatSession }) with
    | .ok s => some s
    | .error _ => none

/-- `createSessionFromData(data, messages, workspace, sessionId)`: builds a
`sqlite`-sourced session; `now` is the `Date.now()` wall clock. -/
def createSessionFromData (data : Json) (messages : List ChatMessage) (w : WorkspaceMeta)
    (sessionId : String) (now : Int) : Except Unit ChatSession := do
  let title ← titleOf data ["title", "name", "sessionTitle"] messages
    ("Chat " ++ sessionId.take 8 ++ "...")
  Except.ok {
    sessionId := jsOrDefault (getF data "sessionId") (.str sessionId)
    title := title
    messages := messages
    workspaceId := w.workspaceId
    workspaceName := workspaceNameOf w
    projectPath := w.projectPath
    createdAt := jsOr (getF data "createdAt") (getF data "created")
    modifiedAt := some now
    model := jsOr (getF data "model") (getF data "languageModel")
    agentMode := jsOr (getF data "agentMode") (getF data "mode")
    source := Source.sqlite
    filePath := none : ChatSession }

/-- The `Array.isArray(data)` branch of `processDbEntry`: walk the array
with its index; `typeof data[i] === 'object'` admits objects, arrays and
`null`.  A thrown error (e.g. `parseMessages(null)`) aborts the rest of
the row but keeps the sessions already pushed, because the row-level
`try`/`catch` in `extractSessionsFromSqlite` swallows it. -/
def processDbArray (w : WorkspaceMeta) (now : Int) (i : Nat) :
    List Json → List ChatSession
  | [] => []
  | d :: ds =>
    if isTypeofObject d then
      match (do
        let messages ← parseMessages d
        if messages.length > 0 then
          some <$> createSessionFromData d messages w (s!"db_{i}") now
        else pure none) with
      | .error _ => []
      | .ok none => processDbArray w now (i + 1) ds
      | .ok (some s) => s :: processDbArray w now (i + 1) ds
    else processDbArray w now (i + 1) ds

/-- The `Object.entries(data.sessions)` branch of `processDbEntry`;
entry order is the JSON field order of the model. -/
def processDbSessionsMap (w : WorkspaceMeta) (now : Int) :
    List (String × Json) → List ChatSession
  | [] => []
  | (sid, sdata) :: rest =>
    if isTypeofObject sdata then
      match (do
        let messages ← parseMessages sdata
        if messages.length > 0 then
          some <$> createSessionFromData sdata messages w sid now
        else pure none) with
      | .error _ => []
      | .ok none => processDbSessionsMap w now rest
      | .ok (some s) => s :: processDbSessionsMap w now rest
    else processDbSessionsMap w now rest

/-- The plain-object fallback of `processDbEntry` (no `sessions` field or a
falsy one): the whole record is one candidate session with generated id
`db_` + `Date.now()`. -/
def dbElseBranch (data : Json) (w : WorkspaceMeta) (now : Int) : List ChatSession :=
  match (do
    let messages ← parseMessages data
    if messages.length > 0 then
      some <$> createSessionFromData data messages w (s!"db_{now}") now
    else pure none) with
  | .error _ => []
  | .ok none => []
  | .ok (some s) => [s]

/-- The field list of an object value. -/
def objFields : Json → List (String × Json)
  | .obj fs => fs
  | _ => []

/-- `processDbEntry(data, workspace, sessions)`: the sessions pushed for
one decoded database row.  Branch structure follows the source:
`if (!data) return; if (Array.isArray(data)) ... else if (typeof data ===
'object') { if (data.sessions) { if (typeof data.sessions === 'object' &&
!Array.isArray(data.sessions)) ... } else ... }`. -/
def processDbEntry (data : Json) (w : WorkspaceMeta) (now : Int) : List ChatSession :=
  if !truthy data then []
  else if isArray data then processDbArray w now 0 (arrItems data)
  else if isTypeofObject data then
    match getF data "sessions" with
    | some sv =>
      if truthy sv then
        -- a truthy `sessions` that is an array or a primitive fires neither branch
        if isTypeofObject sv && !isArray sv then processDbSessionsMap w now (objFields sv)
        else []
      else dbElseBranch data w now
    | none => dbElseBranch data w now
  else []   -- truthy primitive: `typeof data === 'object'` is false

/-- One row of the `ItemTable` query: the key column and the result of
`JSON.parse(row.value)` (`none` when the decode threw). -/
structure DbRow where
  key : String
  value : Option Json := none

/-- Substring test used to model `key LIKE '%pat%'`. -/
def listStarts : List Char → List Char → Bool
  | _, [] => true
  | [], _ :: _ => false
  | c :: cs, p :: ps => c == p && listStarts cs ps

def listHasSub : List Char → List Char → Bool
  | [], pat => pat.isEmpty
  | c :: cs, pat => listStarts (c :: cs) pat || listHasSub cs pat

def strContains (s pat : String) : Bool :=
  listHasSub s.toList pat.toList

/-- `toLowerCase()`, modelled characterwise (ASCII case folding). -/
def strLower (s : String) : String := ⟨s.data.map Char.toLower⟩

/-- The SQL key filter: `LIKE` is ASCII-case-insensitive in SQLite, so the
key is lower-cased before the (lower-case) pattern test. -/
def keyLikeChat (k : String) : Bool :=
  let lk := strLower k
  strContains lk "chat" || strContains lk "interactive"
    || strContains lk "copilot" || strContains lk "session"

/-- `extractSessionsFromSqlite(workspace)`.  `db = none` models every way
the store can fail to open (file absent, driver unavailable, locked,
corrupt): the whole body is wrapped in `try`/`catch`, so that case yields
the empty list.  `db = some rows` models a successful open; each matching
row is decoded and processed, with per-row failures swallowed. -/
def extractSessionsFromSqlite (w : WorkspaceMeta) (db : Option (List DbRow))
    (now : Int) : List ChatSession :=
  match db with
  | none => []
  | some rows =>
    ((rows.filter (fun r => keyLikeChat r.key)).map (fun r =>
      match r.value with
      | none => []   -- JSON.parse threw; the row is skipped
      | some data => processDbEntry data w now)).flatten

/-- Abstract input for one discovered workspace: its metadata, its
`chatSessionFiles` in directory order, and the embedded store
(`none` when absent or failing to open). -/
structure WorkspaceInput where
  meta : WorkspaceMeta
  files : List FileInput := []
  db : Option (List DbRow) := none

/-- `seenIds.has(id)` over the modelled seen set. -/
def seenHas (seen : List Json) (id : Json) : Bool :=
  seen.any (fun k => jsSame k id)

/-- The per-workspace file loop of `getAllSessions`: push a parsed file
session when it is non-null, non-empty and its id is unseen. -/
def fileLoop (meta : WorkspaceMeta) : List FileInput → List ChatSession → List Json →
    List ChatSession × List Json
  | [], acc, seen => (acc, seen)
  | f :: fs, acc, seen =>
    match parseSessionFromFile f meta with
    | some s =>
      if s.messages.length > 0 && !seenHas seen s.sessionId then
        fileLoop meta fs (acc ++ [s]) (s.sessionId :: seen)
      else fileLoop meta fs acc seen
    | none => fileLoop meta fs acc seen

/-- The per-workspace sqlite loop of `getAllSessions`: push a database
session when its id is unseen (no emptiness check here). -/
def dbLoop : List ChatSession → List ChatSession → List Json →
    List ChatSession × List Json
  | [], acc, seen => (acc, seen)
  | s :: ss, acc, seen =>
    if seenHas seen s.sessionId then dbLoop ss acc seen
    else dbLoop ss (acc ++ [s]) (s.sessionId :: seen)

/-- The workspace loop of `getAllSessions`. -/
def aggLoop (now : Int) : List WorkspaceInput → List ChatSession → List Json →
    List ChatSession
  | [], acc, _ => acc
  | w :: ws, acc, seen =>
    let fr := fileLoop w.meta w.files acc seen
    let dr := dbLoop (extractSessionsFromSqlite w.meta w.db now) fr.1 fr.2
    aggLoop now ws dr.1 dr.2

/-- The aggregate (pre-sort) session list of `getAllSessions`. -/
def aggregateSessions (inputs : List WorkspaceInput) (now : Int) : List ChatSession :=
  aggLoop now inputs [] []

/-- `(s.modifiedAt || 0)`: the sort key of the final sort. -/
def sortKey (s : ChatSession) : Int :=
  match s.modifiedAt with
  | some t => t
  | none => 0

/-- Stable insertion of one session into a list sorted by `sortKey`
descending: it goes after every element with a strictly larger or equal
key position, i.e. before the first element whose key is not larger. -/
def insertByMtime (x : ChatSession) : List ChatSession → List ChatSession
  | [] => [x]
  | y :: ys => if sortKey y > sortKey x then y :: insertByMtime x ys else x :: y :: ys

/-- `sessions.sort((a, b) => (b.modifiedAt || 0) - (a.modifiedAt || 0))`.
`Array.prototype.sort` is a stable sort (ES2019); a stable sort under a
total preorder has a unique result, so stable insertion sort is an exact
model. -/
def sortByMtimeDesc : List ChatSession → List ChatSession
  | [] => []
  | x :: xs => insertByMtime x (sortByMtimeDesc xs)

/-- `getAllSessions()`, as a function of the discovered workspace
inputs and the extraction wall-clock time. -/
def getAllSessions (inputs : List WorkspaceInput) (now : Int) : List ChatSession :=
  sortByMtimeDesc (aggregateSessions inputs now)

/-- The deduplication-free candidate stream, in aggregation order: for
each workspace, the successfully parsed non-empty file sessions in file
order, then the database sessions in extraction order.  (Empty file
sessions are excluded before any dedup bookkeeping; database sessions are
non-empty by construction.) -/
def sessionCandidates (inputs : List WorkspaceInput) (now : Int) : List ChatSession :=
  (inputs.map (fun w =>
    ((w.files.filterMap (fun f => parseSessionFromFile f w.meta)).filter
        (fun s => s.messages.length > 0))
      ++ extractSessionsFromSqlite w.meta w.db now)).flatten

/-- First-seen-wins deduplication by (`===`) session id, written from the
spec's words: the first session with a given id is kept, every later one
with the same id is dropped. -/
def dedupFirstWins (seen : List Json) : List ChatSession → List ChatSession
  | [] => []
  | s :: ss =>
    if seenHas seen s.sessionId then dedupFirstWins seen ss
    else s :: dedupFirstWins (s.sessionId :: seen) ss

/-- The seen set after consuming a candidate list. -/
def seenAfter (seen : List Json) : List ChatSession → List Json
  | [] => seen
  | s :: ss =>
    if seenHas seen s.sessionId then seenAfter seen ss
    else seenAfter (s.sessionId :: seen) ss

/-- A search result: the matching session and its matching messages. -/
structure SearchResult where
  session : ChatSession
  «matches» : List ChatMessage

/-- `.toLowerCase()` on a `Json` value: a method call, so it throws on a
non-string. -/
def jsToLowerE : Json → Except Unit String
  | .str s => .ok (strLower s)
  | _ => .error ()

/-- The inner message loop of `searchSessions`. -/
def collectMatches (lq : String) : List ChatMessage → Except Unit (List ChatMessage)
  | [] => .ok []
  | m :: ms => do
    let c ← jsToLowerE m.content
    let rest ← collectMatches lq ms
    if strContains c lq then .ok (m :: rest) else .ok rest

/-- The session loop of `searchSessions`. -/
def searchGo (lq : String) : List ChatSession → Except Unit (List SearchResult)
  | [] => .ok []
  | s :: ss => do
    let t ← jsToLowerE s.title
    let titleMatch := strContains t lq
    let «matches» ← collectMatches lq s.messages
    let rest ← searchGo lq ss
    if titleMatch || «matches».length > 0 then .ok (⟨s, «matches»⟩ :: rest) else .ok rest

/-- `searchSessions(sessions, query)` from `chatExtractor.ts`. -/
def searchSessions (sessions : List ChatSession) (query : String) :
    Except Unit (List SearchResult) :=
  searchGo (strLower query) sessions

/-- The string payload of a `Json` value (used by spec-side definitions;
the typing hypotheses of the theorems keep it on strings). -/
def jsAsStr : Json → String
  | .str s => s
  | _ => ""

/-- Whether a `Json` value is a string (the `types.ts` typing of `title`
and `content`). -/
def isStrB : Json → Bool
  | .str _ => true
  | _ => false

/-- A session whose title and message contents are strings, as the
TypeScript types declare. -/
def sessionWellTyped (s : ChatSession) : Bool :=
  isStrB s.title && s.messages.all (fun m => isStrB m.content)

/-- Spec-side: does this message's case-folded content contain the
case-folded query? -/
def msgMatches (query : String) (m : ChatMessage) : Bool :=
  strContains (strLower (jsAsStr m.content)) (strLower query)

/-- Spec-side: a session matches when its folded title contains the
folded query or some message matches. -/
def sessionMatches (query : String) (s : ChatSession) : Bool :=
  strContains (strLower (jsAsStr s.title)) (strLower query)
    || s.messages.any (msgMatches query)

/-- `searchSessions` as the spec words it: exactly the matching sessions,
in input order, each paired with exactly its matching messages in
original message order. -/
def searchSessionsSpec (sessions : List ChatSession) (query : String) : List SearchResult :=
  (sessions.filter (sessionMatches query)).map
    (fun s => ⟨s, s.messages.filter (msgMatches query)⟩)

/-- First *present* candidate field, as claim C5 words the object case. -/
def firstPresent (fs : List (String × Json)) : List String → Option Json
  | [] => none
  | k :: ks =>
    match lookupField fs k with
    | some v => some v
    | none => firstPresent fs ks

/-- First *truthy* candidate field (what the code actually selects). -/
def firstTruthyField (fs : List (String × Json)) : List String → Option Json
  | [] => none
  | k :: ks =>
    match lookupField fs k with
    | some v => if truthy v then some v else firstTruthyField fs ks
    | none => firstTruthyField fs ks

/-- Content extraction exactly as claim C5 words it: strings verbatim;
arrays map every element through the same extraction (with the same
candidate field set) and join the non-empty results with newlines;
objects yield the first present of the ordered candidate fields;
anything else is the empty string. -/
def extractContentClaim : Json → String
  | .null => ""
  | .bool _ => ""
  | .num _ => ""
  | .str s => s
  | .arr xs => String.intercalate "\n" ((extractContentClaimElems xs).filter (fun r => r != ""))
  | .obj fs => jsAsStr ((firstPresent fs ["text", "value", "content", "message"]).getD (.str ""))
where extractContentClaimElems : List Json → List String
  | [] => []
  | x :: xs => extractContentClaim x :: extractContentClaimElems xs

/-- One array element of content extraction, as amended: a string is kept
verbatim; a `null` element throws; an object or array yields the first
truthy of its `text`, `value`, `content` fields (empty if none); any
other element yields the empty string. -/
def amendedElem : Json → Except Unit Json
  | .str s => .ok (.str s)
  | .null => .error ()
  | .obj fs => .ok ((firstTruthyField fs ["text", "value", "content"]).getD (.str ""))
  | .arr _ => .ok (.str "")
  | _ => .ok (.str "")

/-- Content extraction as amended by the counterexample to C5: strings
verbatim; the array branch is a restricted per-element rule (no
recursion, no `message` field, failing on `null` elements) whose truthy
results are stringified and joined with newlines; the object branch is
the first *truthy* of `text`, `value`, `content`, `message`, returned
verbatim; everything else yields the empty string. -/
def extractContentAmended : Option Json → Except Unit Json
  | none => .ok (.str "")
  | some d =>
    match d with
    | .str s => .ok (.str s)
    | .arr xs => do
        let parts ← xs.mapM amendedElem
        .ok (.str (String.intercalate "\n" ((parts.filter truthy).map jsString)))
    | .obj fs => .ok ((firstTruthyField fs ["text", "value", "content", "message"]).getD (.str ""))
    | _ => .ok (.str "")

/-- The message predicate of the search loop, phrased on the
already-lowered query (`msgMatches query = msgMatchesL (strLower query)`). -/
def msgMatchesL (lq : String) (m : ChatMessage) : Bool :=
  strContains (strLower (jsAsStr m.content)) lq

/-- The title predicate of the search loop on the already-lowered query. -/
def titleMatchesL (lq : String) (s : ChatSession) : Bool :=
  strContains (strLower (jsAsStr s.title)) lq

/-- Invariant of every message the session-level extractor pushes: its
content is truthy, and when it carries `rawData` the recorded record
re-parses to the very same message. -/
def goodMsg (m : ChatMessage) : Prop :=
  truthy m.content = true ∧ ∀ r, m.rawData = some r → parseMessage r = .ok (some m)

/-- A step of the item loop only appends messages, and appends only good
ones. -/
def AppendsGood (f : List ChatMessage → Except Unit (List ChatMessage)) : Prop :=
  ∀ acc acc', f acc = .ok acc' → ∃ t, acc' = acc ++ t ∧ ∀ m ∈ t, goodMsg m

/-! ## Helper lemmas -/

theorem bindEqOk {α β : Type} {e : Except Unit α} {f : α → Except Unit β} {b : β}
    (h : e >>= f = .ok b) : ∃ a, e = .ok a ∧ f a = .ok b := by
  cases e with
  | error e => simp [Bind.bind, Except.bind] at h
  | ok a => exact ⟨a, rfl, by simpa [Bind.bind, Except.bind] using h⟩

theorem truthy_str_empty_false : truthy (Json.str "") = false := rfl

/-- Every successfully parsed single message records the original record
in `rawData`, carries the computed role and content, and is never both
`unknown`-roled and falsy-contented. -/
theorem parseMessage_shape {d : Json} {m : ChatMessage}
    (h : parseMessage d = .ok (some m)) :
    m.rawData = some d ∧ m.role = roleOf d ∧
      (m.role = Role.unknown → truthy m.content = true) := by
  unfold parseMessage at h
  split at h
  · simp at h
  · obtain ⟨c, hc, h2⟩ := bindEqOk h
    split at h2
    · simp [pure, Except.pure] at h2
    · rename_i hguard
      simp only [pure, Except.pure, Except.ok.injEq, Option.some.injEq] at h2
      subst h2
      refine ⟨rfl, rfl, ?_⟩
      intro hrole
      simp only [Bool.not_eq_true, Bool.and_eq_true, Bool.not_eq_true', beq_iff_eq] at hguard
      rcases Bool.eq_false_or_eq_true (truthy c) with ht | hf
      · exact ht
      · exact absurd ⟨hf, hrole⟩ hguard

theorem appendsGood_pure : AppendsGood (fun acc => .ok acc) := by
  intro acc acc' h
  exact ⟨[], by simpa using h.symm, by simp⟩

theorem appendsGood_comp {f g : List ChatMessage → Except Unit (List ChatMessage)}
    (hf : AppendsGood f) (hg : AppendsGood g) :
    AppendsGood (fun acc => f acc >>= g) := by
  intro acc acc' h
  obtain ⟨a1, h1, h2⟩ := bindEqOk h
  obtain ⟨t1, rfl, ht1⟩ := hf _ _ h1
  obtain ⟨t2, rfl, ht2⟩ := hg _ _ h2
  refine ⟨t1 ++ t2, by simp, ?_⟩
  intro m hm
  rcases List.mem_append.1 hm with h | h
  exacts [ht1 m h, ht2 m h]

theorem requestStep_appends (item : Json) : AppendsGood (requestStep item) := by
  intro acc acc' h
  unfold requestStep at h
  split at h
  · rename_i request _
    split at h
    · obtain ⟨uc, h1, h2⟩ := bindEqOk h
      split at h2
      · rename_i htr
        simp only [pure, Except.pure, Except.ok.injEq] at h2
        refine ⟨_, h2.symm, ?_⟩
        intro m hm
        simp only [List.mem_singleton] at hm
        subst hm
        exact ⟨htr, by intro r hr; simp [mkSyntheticMsg] at hr⟩
      · simp only [pure, Except.pure, Except.ok.injEq] at h2
        exact ⟨[], by simp [h2.symm], by simp⟩
    · simp only [pure, Except.pure, Except.ok.injEq] at h
      exact ⟨[], by simp [h.symm], by simp⟩
  · simp only [pure, Except.pure, Except.ok.injEq] at h
    exact ⟨[], by simp [h.symm], by simp⟩

theorem responseStep_appends (item : Json) : AppendsGood (responseStep item) := by
  intro acc acc' h
  unfold responseStep at h
  split at h
  · rename_i response _
    split at h
    · obtain ⟨ac, h1, h2⟩ := bindEqOk h
      split at h2
      · rename_i htr
        simp only [pure, Except.pure, Except.ok.injEq] at h2
        refine ⟨_, h2.symm, ?_⟩
        intro m hm
        simp only [List.mem_singleton] at hm
        subst hm
        exact ⟨htr, by intro r hr; simp [mkSyntheticMsg] at hr⟩
      · simp only [pure, Except.pure, Except.ok.injEq] at h2
        exact ⟨[], by simp [h2.symm], by simp⟩
    · simp only [pure, Except.pure, Except.ok.injEq] at h
      exact ⟨[], by simp [h.symm], by simp⟩
  · simp only [pure, Except.pure, Except.ok.injEq] at h
    exact ⟨[], by simp [h.symm], by simp⟩

theorem flatStep_appends (item : Json) : AppendsGood (flatStep item) := by
  intro acc acc' h
  unfold flatStep at h
  split at h
  · obtain ⟨o, h1, h2⟩ := bindEqOk h
    cases o with
    | some msg =>
      rw [flatStep.pushParsed] at h2
      split at h2
      · rename_i htr
        simp only [pure, Except.pure, Except.ok.injEq] at h2
        refine ⟨_, h2.symm, ?_⟩
        intro m hm
        simp only [List.mem_singleton] at hm
        subst hm
        refine ⟨htr, ?_⟩
        intro r hr
        have hshape := parseMessage_shape h1
        rw [hshape.1] at hr
        simp only [Option.some.injEq] at hr
        subst hr
        exact h1
      · simp only [pure, Except.pure, Except.ok.injEq] at h2
        exact ⟨[], by simp [h2.symm], by simp⟩
    | none =>
      rw [flatStep.pushParsed] at h2
      simp only [pure, Except.pure, Except.ok.injEq] at h2
      exact ⟨[], by simp [h2.symm], by simp⟩
  · simp only [Except.pure, Except.ok.injEq, pure] at h
    exact ⟨[], by simp [h.symm], by simp⟩

theorem processItem_appends (item : Json) :
    AppendsGood (fun acc => processItem acc item) := by
  intro acc acc' h
  unfold processItem at h
  split at h
  · simp only [Except.ok.injEq] at h
    exact ⟨[], by simp [h.symm], by simp⟩
  · exact appendsGood_comp (appendsGood_comp (requestStep_appends item)
      (responseStep_appends item)) (flatStep_appends item) acc acc' h

theorem processItems_appends (items : List Json) :
    AppendsGood (fun acc => processItems acc items) := by
  induction items with
  | nil =>
    intro acc acc' h
    simp only [processItems, Except.ok.injEq] at h
    exact ⟨[], by simp [h.symm], by simp⟩
  | cons it its ih =>
    intro acc acc' h
    simp only [processItems] at h
    exact appendsGood_comp (processItem_appends it) ih acc acc' h

theorem parseMessagesGo_appends (data : Json) (keys : List String) :
    AppendsGood (fun acc => parseMessagesGo data acc keys) := by
  induction keys with
  | nil =>
    intro acc acc' h
    simp only [parseMessagesGo, Except.ok.injEq] at h
    exact ⟨[], by simp [h.symm], by simp⟩
  | cons key keys ih =>
    intro acc acc' h
    simp only [parseMessagesGo] at h
    obtain ⟨v, hv, h2⟩ := bindEqOk h
    have h2' : (if truthyO v && isArray (v.getD .null) then
        processItems acc (arrItems (v.getD .null)) >>= fun a =>
          if a.length > 0 then Except.ok a else parseMessagesGo data a keys
      else parseMessagesGo data acc keys) = Except.ok acc' := h2
    clear h2
    split at h2'
    · have hg : AppendsGood (fun a =>
          if a.length > 0 then Except.ok a else parseMessagesGo data a keys) := by
        intro a a' hh
        have hh' : (if a.length > 0 then Except.ok a
            else parseMessagesGo data a keys) = Except.ok a' := hh
        split at hh'
        · simp only [Except.ok.injEq] at hh'
          exact ⟨[], by simp [hh'.symm], by simp⟩
        · exact ih a a' hh'
      exact appendsGood_comp (processItems_appends (arrItems (v.getD .null))) hg acc acc' h2'
    · exact ih acc acc' h2'

/-- Every message in a successful `parseMessages` run is good. -/
theorem parseMessages_good {d : Json} {msgs : List ChatMessage}
    (h : parseMessages d = .ok msgs) : ∀ m ∈ msgs, goodMsg m := by
  obtain ⟨t, ht, hgood⟩ := parseMessagesGo_appends d messageContainers [] msgs h
  intro m hm
  exact hgood m (by simpa [ht] using hm)

/-- Claim C6: single-message parsing never constructs a message whose
role is unknown and whose content is empty; a record yielding both is
rejected (no message is returned). -/
theorem c6_no_unknown_empty_message (d : Json) (m : ChatMessage)
    (h : parseMessage d = .ok (some m)) :
    ¬(m.role = Role.unknown ∧ m.content = Json.str "") := by
  rintro ⟨hrole, hc⟩
  have ht := (parseMessage_shape h).2.2 hrole
  rw [hc] at ht
  exact absurd ht (by decide)

/-- Witness for C6 at a concrete record with unknown role and non-empty
content. -/
theorem c6_witness :
    parseMessage (.obj [("content", .str "junk payload")]) =
      .ok (some { role := Role.unknown, content := Json.str "junk payload",
                  rawData := some (.obj [("content", .str "junk payload")]) }) ∧
    ¬(Role.unknown = Role.unknown ∧ Json.str "junk payload" = Json.str "") :=
  ⟨rfl, c6_no_unknown_empty_message (.obj [("content", .str "junk payload")])
    { role := Role.unknown, content := Json.str "junk payload",
      rawData := some (.obj [("content", .str "junk payload")]) } rfl⟩

/-- Claim C9: every message produced by session-level message-list
extraction has non-empty content (truthy, hence not the empty string);
flat messages with empty content are dropped even with a known role, and
synthetic request/response messages are only emitted with non-empty
extracted content. -/
theorem c9_messages_nonempty_content (d : Json) (msgs : List ChatMessage)
    (h : parseMessages d = .ok msgs) :
    ∀ m ∈ msgs, truthy m.content = true ∧ m.content ≠ Json.str "" := by
  intro m hm
  have hg := parseMessages_good h m hm
  refine ⟨hg.1, ?_⟩
  intro hc
  have := hg.1
  rw [hc] at this
  exact absurd this (by decide)

/-- Witness for C9 at a concrete session record. -/
theorem c9_witness :
    parseMessages (.obj [("turns", .arr [.obj [("role", .str "human"),
        ("content", .str "what is a monad")]])]) =
      .ok [{ role := Role.user, content := Json.str "what is a monad",
             rawData := some (.obj [("role", .str "human"),
               ("content", .str "what is a monad")]) }] ∧
    (truthy (Json.str "what is a monad") = true ∧
      Json.str "what is a monad" ≠ Json.str "") :=
  ⟨rfl, c9_messages_nonempty_content
    (.obj [("turns", .arr [.obj [("role", .str "human"),
      ("content", .str "what is a monad")]])])
    [{ role := Role.user, content := Json.str "what is a monad",
       rawData := some (.obj [("role", .str "human"),
         ("content", .str "what is a monad")]) }] rfl
    { role := Role.user, content := Json.str "what is a monad",
      rawData := some (.obj [("role", .str "human"),
        ("content", .str "what is a monad")]) } (List.mem_singleton.mpr rfl)⟩

/-- Claim C8 counterexample: a database-derived (`sqlite`-sourced)
session can carry messages with `rawData` present, because the flat
single-message parser attaches `rawData` on both the file and the
database paths.  Concretely, one store row whose value holds a flat
message record yields a sqlite session whose only message has
`rawData.isSome = true`. -/
theorem c8_counterexample :
    (extractSessionsFromSqlite ⟨"ws1", none, none⟩
        (some [⟨"workbench.panel.chat.data", some (.obj [("messages", .arr
          [.obj [("role", .str "user"), ("content", .str "hello db")]])])⟩]) 0).map
      (fun s => (s.source, s.messages.map (fun m => m.rawData.isSome))) =
    [(Source.sqlite, [true])] := rfl

/-- Claim C8 (amended): `rawData` is attached exactly by the flat
single-record parser, on both the file and the database paths; whenever a
message of a session-level extraction carries `rawData`, that value is
the original record and re-parses to the very same message, and synthetic
request/response messages never carry it. -/
theorem c8_rawData_reparses (d : Json) (msgs : List ChatMessage)
    (h : parseMessages d = .ok msgs) :
    ∀ m ∈ msgs, ∀ r, m.rawData = some r → parseMessage r = .ok (some m) :=
  fun m hm => (parseMessages_good h m hm).2

/-- Witness for the amended C8 at a concrete record. -/
theorem c8_witness :
    parseMessages (.obj [("messages", .arr [.obj [("role", .str "user"),
        ("content", .str "raw kept")]])]) =
      .ok [{ role := Role.user, content := Json.str "raw kept",
             rawData := some (.obj [("role", .str "user"), ("content", .str "raw kept")]) }] ∧
    parseMessage (.obj [("role", .str "user"), ("content", .str "raw kept")]) =
      .ok (some { role := Role.user, content := Json.str "raw kept",
                  rawData := some (.obj [("role", .str "user"), ("content", .str "raw kept")]) }) :=
  ⟨rfl, c8_rawData_reparses
    (.obj [("messages", .arr [.obj [("role", .str "user"),
      ("content", .str "raw kept")]])])
    [{ role := Role.user, content := Json.str "raw kept",
       rawData := some (.obj [("role", .str "user"), ("content", .str "raw kept")]) }] rfl
    { role := Role.user, content := Json.str "raw kept",
      rawData := some (.obj [("role", .str "user"), ("content", .str "raw kept")]) }
    (List.mem_singleton.mpr rfl) _ rfl⟩

/-- Claim C5 counterexample: the array branch of `extractContent` does
not run elements through the same extraction with the same candidate set
(an object element with only a `message` field yields nothing inside an
array but yields the field at top level), and the object branch returns
the first *truthy*, not the first *present*, candidate field. -/
theorem c5_counterexample :
    extractContent (some (.arr [.obj [("message", .str "hi")]])) = .ok (.str "") ∧
    extractContent (some (.obj [("message", .str "hi")])) = .ok (.str "hi") ∧
    extractContentClaim (.arr [.obj [("message", .str "hi")]]) = "hi" ∧
    extractContent (some (.obj [("text", .str ""), ("value", .str "x")])) = .ok (.str "x") ∧
    extractContentClaim (.obj [("text", .str ""), ("value", .str "x")]) = "" :=
  ⟨rfl, rfl, rfl, rfl, rfl⟩

theorem jsOr_assoc (a b c : Option Json) : jsOr (jsOr a b) c = jsOr a (jsOr b c) := by
  cases a with
  | none => rfl
  | some v => by_cases h : truthy v = true <;> simp [jsOr, h]

theorem chain1_eq (a : Option Json) : jsOrDefault a (Json.str "") =
    ((match a with
      | some v => if truthy v then some v else (none : Option Json)
      | none => none)).getD (Json.str "") := by
  cases a with
  | none => rfl
  | some v => by_cases h : truthy v = true <;> simp [jsOrDefault, h]

theorem chain_step (a b : Option Json) (rest : Option Json)
    (hrec : jsOrDefault b (Json.str "") = rest.getD (Json.str "")) :
    jsOrDefault (jsOr a b) (Json.str "") =
      ((match a with
        | some v => if truthy v then some v else rest
        | none => rest)).getD (Json.str "") := by
  cases a with
  | none => simpa [jsOr] using hrec
  | some v =>
    by_cases h : truthy v = true
    · simp [jsOr, jsOrDefault, h]
    · have hj : jsOr (some v) b = b := by simp [jsOr, h]
      rw [hj, hrec]
      simp [h]

theorem chain3_eq_firstTruthy (fs : List (String × Json)) :
    jsOrDefault (jsOr (jsOr (lookupField fs "text") (lookupField fs "value"))
      (lookupField fs "content")) (Json.str "") =
    (firstTruthyField fs ["text", "value", "content"]).getD (Json.str "") := by
  have h1 : jsOrDefault (lookupField fs "content") (Json.str "") =
      (firstTruthyField fs ["content"]).getD (Json.str "") := chain1_eq _
  have h2 : jsOrDefault (jsOr (lookupField fs "value") (lookupField fs "content"))
      (Json.str "") = (firstTruthyField fs ["value", "content"]).getD (Json.str "") :=
    chain_step _ _ _ h1
  rw [jsOr_assoc]
  exact chain_step _ _ _ h2

theorem chain4_eq_firstTruthy (fs : List (String × Json)) :
    jsOrDefault (jsOr (jsOr (jsOr (lookupField fs "text") (lookupField fs "value"))
      (lookupField fs "content")) (lookupField fs "message")) (Json.str "") =
    (firstTruthyField fs ["text", "value", "content", "message"]).getD (Json.str "") := by
  have h1 : jsOrDefault (lookupField fs "message") (Json.str "") =
      (firstTruthyField fs ["message"]).getD (Json.str "") := chain1_eq _
  have h2 : jsOrDefault (jsOr (lookupField fs "content") (lookupField fs "message"))
      (Json.str "") = (firstTruthyField fs ["content", "message"]).getD (Json.str "") :=
    chain_step _ _ _ h1
  have h3 : jsOrDefault (jsOr (lookupField fs "value")
      (jsOr (lookupField fs "content") (lookupField fs "message"))) (Json.str "") =
      (firstTruthyField fs ["value", "content", "message"]).getD (Json.str "") :=
    chain_step _ _ _ h2
  rw [jsOr_assoc, jsOr_assoc]
  exact chain_step _ _ _ h3

theorem extractContentElem_eq_amended (e : Json) :
    extractContentElem e = amendedElem e := by
  cases e with
  | obj fs =>
    simp only [extractContentElem, amendedElem, Except.ok.injEq]
    exact chain3_eq_firstTruthy fs
  | null => rfl
  | bool b => rfl
  | num n => rfl
  | str s => rfl
  | arr xs => rfl

theorem mapM_elem_eq_amended (xs : List Json) :
    xs.mapM extractContentElem = xs.mapM amendedElem := by
  induction xs with
  | nil => rfl
  | cons x xs ih =>
    rw [List.mapM_cons, List.mapM_cons, ih, extractContentElem_eq_amended]

/-- Claim C5 (amended): content extraction returns strings verbatim; on
arrays it applies the restricted per-element rule (strings verbatim,
objects and arrays probed for the first truthy of `text`, `value`,
`content` only, `null` elements throwing, anything else empty), drops
falsy results and joins the rest with newlines after stringifying; on
objects it returns the first truthy of `text`, `value`, `content`,
`message` verbatim; anything else yields the empty string. -/
theorem c5_extractContent_amended (d : Option Json) :
    extractContent d = extractContentAmended d := by
  match d with
  | none => rfl
  | some .null => rfl
  | some (.bool b) => cases b <;> rfl
  | some (.num n) =>
    show (if !truthy (.num n) then Except.ok (Json.str "") else Except.ok (Json.str "")) =
      Except.ok (Json.str "")
    rw [ite_self]
  | some (.str s) =>
    show (if !truthy (.str s) then Except.ok (Json.str "") else Except.ok (Json.str s)) =
      Except.ok (Json.str s)
    split
    · rename_i hf
      have hs : s = "" := by simpa [truthy] using hf
      subst hs
      rfl
    · rfl
  | some (.arr xs) =>
    show (xs.mapM extractContentElem >>= fun parts =>
        Except.ok (Json.str (String.intercalate "\n" ((parts.filter truthy).map jsString)))) =
      (xs.mapM amendedElem >>= fun parts =>
        Except.ok (Json.str (String.intercalate "\n" ((parts.filter truthy).map jsString))))
    rw [mapM_elem_eq_amended]
  | some (.obj fs) =>
    show Except.ok (jsOrDefault (jsOr (jsOr (jsOr (lookupField fs "text")
        (lookupField fs "value")) (lookupField fs "content")) (lookupField fs "message"))
        (Json.str "")) =
      Except.ok ((firstTruthyField fs ["text", "value", "content", "message"]).getD (Json.str ""))
    rw [chain4_eq_firstTruthy]

theorem isStrB_exists {j : Json} (h : isStrB j = true) : ∃ s, j = Json.str s := by
  cases j <;> simp_all [isStrB]

theorem collectMatches_eq (lq : String) (ms : List ChatMessage)
    (h : ms.all (fun m => isStrB m.content) = true) :
    collectMatches lq ms = .ok (ms.filter (msgMatchesL lq)) := by
  induction ms with
  | nil => rfl
  | cons m ms ih =>
    rw [List.all_cons] at h
    obtain ⟨h1, h2⟩ := Bool.and_eq_true_iff.mp h
    obtain ⟨c, hc⟩ := isStrB_exists h1
    have hp : msgMatchesL lq m = strContains (strLower c) lq := by
      simp [msgMatchesL, hc, jsAsStr]
    simp only [collectMatches, hc, jsToLowerE, ih h2, Bind.bind, Except.bind,
      List.filter_cons, hp]
    by_cases hm : strContains (strLower c) lq = true
    · simp [hm]
    · simp only [Bool.not_eq_true] at hm
      simp [hm]

theorem filter_lenPos_any {α : Type} (p : α → Bool) (l : List α) :
    decide (0 < (l.filter p).length) = l.any p := by
  induction l with
  | nil => rfl
  | cons x xs ih =>
    by_cases h : p x = true <;> simp [List.filter_cons, h, ih]

theorem searchGo_eq (lq : String) (sessions : List ChatSession)
    (h : sessions.all sessionWellTyped = true) :
    searchGo lq sessions = .ok ((sessions.filter (fun s =>
        titleMatchesL lq s || s.messages.any (msgMatchesL lq))).map
      (fun s => ⟨s, s.messages.filter (msgMatchesL lq)⟩)) := by
  induction sessions with
  | nil => rfl
  | cons s ss ih =>
    rw [List.all_cons] at h
    obtain ⟨h1, h2⟩ := Bool.and_eq_true_iff.mp h
    obtain ⟨hT, hM⟩ := Bool.and_eq_true_iff.mp h1
    obtain ⟨t, ht⟩ := isStrB_exists hT
    have hte : titleMatchesL lq s = strContains (strLower t) lq := by
      simp [titleMatchesL, ht, jsAsStr]
    simp only [searchGo, ht, jsToLowerE, collectMatches_eq lq s.messages hM, ih h2,
      Bind.bind, Except.bind, List.filter_cons, hte.symm, filter_lenPos_any]
    by_cases hc : (titleMatchesL lq s || s.messages.any (msgMatchesL lq)) = true
    · simp [hc]
    · simp only [Bool.not_eq_true] at hc
      simp [hc]

/-- Claim C4: for well-typed sessions (string titles and contents, as the
TypeScript types declare), `searchSessions` returns exactly the sessions
whose case-folded title contains the case-folded query or with at least
one matching message, in input order, each with exactly its matching
messages in original message order (empty on a title-only match);
non-matching sessions are absent. -/
theorem c4_searchSessions_correct (sessions : List ChatSession) (query : String)
    (h : sessions.all sessionWellTyped = true) :
    searchSessions sessions query = .ok (searchSessionsSpec sessions query) := by
  unfold searchSessions searchSessionsSpec
  rw [searchGo_eq (strLower query) sessions h]
  rfl

/-- Witness for C4 on a three-session fixture with one title match, one
message match and one non-match. -/
theorem c4_witness :
    ([⟨Json.str "a", Json.str "Binary Search tips", [⟨Role.user, Json.str "hello", none,
        none, none, none⟩], "w1", "W1", none, none, some 5, none, none, Source.json, none⟩,
      ⟨Json.str "b", Json.str "Other", [⟨Role.user, Json.str "use BINARY search here", none,
        none, none, none⟩], "w1", "W1", none, none, some 4, none, none, Source.json, none⟩,
      ⟨Json.str "c", Json.str "Nope", [⟨Role.user, Json.str "zzz", none,
        none, none, none⟩], "w1", "W1", none, none, some 3, none, none,
        Source.sqlite, none⟩].all sessionWellTyped = true) ∧
    searchSessions
      [⟨Json.str "a", Json.str "Binary Search tips", [⟨Role.user, Json.str "hello", none,
        none, none, none⟩], "w1", "W1", none, none, some 5, none, none, Source.json, none⟩,
       ⟨Json.str "b", Json.str "Other", [⟨Role.user, Json.str "use BINARY search here", none,
        none, none, none⟩], "w1", "W1", none, none, some 4, none, none, Source.json, none⟩,
       ⟨Json.str "c", Json.str "Nope", [⟨Role.user, Json.str "zzz", none,
        none, none, none⟩], "w1", "W1", none, none, some 3, none, none,
        Source.sqlite, none⟩] "binary search" =
      .ok (searchSessionsSpec
      [⟨Json.str "a", Json.str "Binary Search tips", [⟨Role.user, Json.str "hello", none,
        none, none, none⟩], "w1", "W1", none, none, some 5, none, none, Source.json, none⟩,
       ⟨Json.str "b", Json.str "Other", [⟨Role.user, Json.str "use BINARY search here", none,
        none, none, none⟩], "w1", "W1", none, none, some 4, none, none, Source.json, none⟩,
       ⟨Json.str "c", Json.str "Nope", [⟨Role.user, Json.str "zzz", none,
        none, none, none⟩], "w1", "W1", none, none, some 3, none, none,
        Source.sqlite, none⟩] "binary search") :=
  ⟨rfl, c4_searchSessions_correct _ _ rfl⟩

theorem listHasSub_nil (l : List Char) : listHasSub l [] = true := by
  cases l <;> rfl

theorem strContains_empty (s : String) : strContains s "" = true :=
  listHasSub_nil s.toList

/-- Claim C10: on the empty query, `searchSessions` over well-typed
sessions returns every session in input order, each paired with its
entire message list. -/
theorem c10_empty_query_matches_all (sessions : List ChatSession)
    (h : sessions.all sessionWellTyped = true) :
    searchSessions sessions "" =
      .ok (sessions.map (fun s => ⟨s, s.messages⟩)) := by
  unfold searchSessions
  rw [searchGo_eq (strLower "") sessions h]
  rw [show strLower "" = "" from rfl]
  have hfil : sessions.filter
      (fun s => titleMatchesL "" s || s.messages.any (msgMatchesL "")) = sessions :=
    List.filter_eq_self.mpr (fun s _ => by simp [titleMatchesL, strContains_empty])
  rw [hfil]
  refine congrArg Except.ok (List.map_congr_left (fun s _ => ?_))
  have : s.messages.filter (msgMatchesL "") = s.messages :=
    List.filter_eq_self.mpr (fun m _ => by simp [msgMatchesL, strContains_empty])
  rw [this]

/-- Witness for C10 on a concrete two-message session. -/
theorem c10_witness :
    ([⟨Json.str "x", Json.str "Title", [⟨Role.user, Json.str "aa", none, none, none, none⟩,
        ⟨Role.assistant, Json.str "bb", none, none, none, none⟩], "w2", "W2", none, none,
        some 9, none, none, Source.json, none⟩].all sessionWellTyped = true) ∧
    searchSessions
      [⟨Json.str "x", Json.str "Title", [⟨Role.user, Json.str "aa", none, none, none, none⟩,
        ⟨Role.assistant, Json.str "bb", none, none, none, none⟩], "w2", "W2", none, none,
        some 9, none, none, Source.json, none⟩] "" =
      .ok ([⟨Json.str "x", Json.str "Title", [⟨Role.user, Json.str "aa", none, none, none, none⟩,
        ⟨Role.assistant, Json.str "bb", none, none, none, none⟩], "w2", "W2", none, none,
        some 9, none, none, Source.json, none⟩].map (fun s => ⟨s, s.messages⟩)) :=
  ⟨rfl, c10_empty_query_matches_all _ rfl⟩

theorem jsSame_symm (a b : Json) : jsSame a b = jsSame b a := by
  cases a <;> cases b <;> simp [jsSame] <;> exact ⟨fun h => h.symm, fun h => h.symm⟩

theorem jsSame_eq_of_true {a b : Json} (h : jsSame a b = true) : a = b := by
  cases a <;> cases b <;> simp_all [jsSame]

theorem jsSame_refl_str (s : String) : jsSame (Json.str s) (Json.str s) = true := by
  simp [jsSame]

theorem mem_dedupFirstWins {seen : List Json} {l : List ChatSession} {s : ChatSession}
    (h : s ∈ dedupFirstWins seen l) : s ∈ l ∧ seenHas seen s.sessionId = false := by
  induction l generalizing seen with
  | nil => simp [dedupFirstWins] at h
  | cons x xs ih =>
    rw [dedupFirstWins] at h
    split at h
    · obtain ⟨h1, h2⟩ := ih h
      exact ⟨List.mem_cons_of_mem _ h1, h2⟩
    · rename_i hx
      rcases List.mem_cons.mp h with rfl | hmem
      · simpa using hx
      · obtain ⟨h1, h2⟩ := ih hmem
        refine ⟨List.mem_cons_of_mem _ h1, ?_⟩
        simp only [seenHas, List.any_cons, Bool.or_eq_false_iff] at h2
        exact h2.2
  
theorem dedupFirstWins_pairwise (seen : List Json) (l : List ChatSession) :
    (dedupFirstWins seen l).Pairwise
      (fun a b => jsSame a.sessionId b.sessionId = false) := by
  induction l generalizing seen with
  | nil => exact List.Pairwise.nil
  | cons x xs ih =>
    rw [dedupFirstWins]
    split
    · exact ih seen
    · refine List.pairwise_cons.mpr ⟨?_, ih _⟩
      intro t ht
      have := (mem_dedupFirstWins ht).2
      simp only [seenHas, List.any_cons, Bool.or_eq_false_iff] at this
      exact this.1

theorem dedupFirstWins_complete {l : List ChatSession} {c : ChatSession} (seen : List Json)
    (hc : c ∈ l) (hseen : seenHas seen c.sessionId = false) :
    ∃ s ∈ dedupFirstWins seen l, s.sessionId = c.sessionId := by
  induction l generalizing seen with
  | nil => simp at hc
  | cons x xs ih =>
    rw [dedupFirstWins]
    rcases List.mem_cons.mp hc with rfl | hmem
    · rw [if_neg (by simp [hseen])]
      exact ⟨c, List.mem_cons_self _ _, rfl⟩
    · by_cases hx : seenHas seen x.sessionId = true
      · rw [if_pos hx]
        exact ih seen hmem hseen
      · rw [if_neg hx]
        by_cases hxc : jsSame x.sessionId c.sessionId = true
        · exact ⟨x, List.mem_cons_self _ _, jsSame_eq_of_true hxc⟩
        · have hseen2 : seenHas (x.sessionId :: seen) c.sessionId = false := by
            simp only [seenHas, List.any_cons, Bool.or_eq_false_iff]
            exact ⟨by simpa using hxc, by simpa [seenHas] using hseen⟩
          obtain ⟨s, hs, he⟩ := ih _ hmem hseen2
          exact ⟨s, List.mem_cons_of_mem _ hs, he⟩

theorem seenAfter_append (seen : List Json) (l1 l2 : List ChatSession) :
    seenAfter seen (l1 ++ l2) = seenAfter (seenAfter seen l1) l2 := by
  induction l1 generalizing seen with
  | nil => rfl
  | cons x xs ih =>
    rw [List.cons_append, seenAfter, seenAfter]
    split
    · exact ih seen
    · exact ih _

theorem dedupFirstWins_append (seen : List Json) (l1 l2 : List ChatSession) :
    dedupFirstWins seen (l1 ++ l2) =
      dedupFirstWins seen l1 ++ dedupFirstWins (seenAfter seen l1) l2 := by
  induction l1 generalizing seen with
  | nil => rfl
  | cons x xs ih =>
    rw [List.cons_append, dedupFirstWins, dedupFirstWins, seenAfter]
    split
    · exact ih seen
    · rw [List.cons_append, ih _]

theorem fileLoop_eq (meta : WorkspaceMeta) (fs : List FileInput) :
    ∀ (acc : List ChatSession) (seen : List Json),
      fileLoop meta fs acc seen =
        (acc ++ dedupFirstWins seen ((fs.filterMap
            (fun f => parseSessionFromFile f meta)).filter
            (fun s => s.messages.length > 0)),
         seenAfter seen ((fs.filterMap (fun f => parseSessionFromFile f meta)).filter
            (fun s => s.messages.length > 0))) := by
  induction fs with
  | nil => intro acc seen; simp [fileLoop, dedupFirstWins, seenAfter]
  | cons f fs ih =>
    intro acc seen
    rw [fileLoop]
    cases hp : parseSessionFromFile f meta with
    | none =>
      have hstep : (f :: fs).filterMap (fun f => parseSessionFromFile f meta) =
          fs.filterMap (fun f => parseSessionFromFile f meta) := by
        simp [List.filterMap_cons, hp]
      rw [hstep]
      exact ih acc seen
    | some s =>
      have hstep : (f :: fs).filterMap (fun f => parseSessionFromFile f meta) =
          s :: fs.filterMap (fun f => parseSessionFromFile f meta) := by
        simp [List.filterMap_cons, hp]
      rw [hstep, List.filter_cons]
      show (if (decide (s.messages.length > 0) && !seenHas seen s.sessionId) = true
          then fileLoop meta fs (acc ++ [s]) (s.sessionId :: seen)
          else fileLoop meta fs acc seen) = _
      by_cases hlen : s.messages.length > 0
      · by_cases hseen : seenHas seen s.sessionId = true
        · rw [if_neg (by simp [hseen]), if_pos (by simpa using hlen)]
          simp only [dedupFirstWins, seenAfter, if_pos hseen]
          exact ih acc seen
        · rw [if_pos (by simp [hseen, hlen]), if_pos (by simpa using hlen)]
          simp only [dedupFirstWins, seenAfter, if_neg hseen]
          rw [ih (acc ++ [s]) (s.sessionId :: seen)]
          simp
      · rw [if_neg (by simp [hlen]), if_neg (by simpa using hlen)]
        exact ih acc seen

theorem dbLoop_eq (l : List ChatSession) :
    ∀ (acc : List ChatSession) (seen : List Json),
      dbLoop l acc seen = (acc ++ dedupFirstWins seen l, seenAfter seen l) := by
  induction l with
  | nil => intro acc seen; simp [dbLoop, dedupFirstWins, seenAfter]
  | cons s ss ih =>
    intro acc seen
    rw [dbLoop, dedupFirstWins, seenAfter]
    by_cases hseen : seenHas seen s.sessionId = true
    · rw [if_pos hseen, if_pos hseen, if_pos hseen]
      exact ih acc seen
    · rw [if_neg hseen, if_neg hseen, if_neg hseen, ih (acc ++ [s]) (s.sessionId :: seen)]
      simp

theorem aggLoop_eq (now : Int) (inputs : List WorkspaceInput) :
    ∀ (acc : List ChatSession) (seen : List Json),
      aggLoop now inputs acc seen = acc ++ dedupFirstWins seen (sessionCandidates inputs now) := by
  induction inputs with
  | nil => intro acc seen; simp [aggLoop, sessionCandidates, dedupFirstWins]
  | cons w ws ih =>
    intro acc seen
    rw [aggLoop]
    have hcand : sessionCandidates (w :: ws) now =
        (((w.files.filterMap (fun f => parseSessionFromFile f w.meta)).filter
            (fun s => s.messages.length > 0))
          ++ extractSessionsFromSqlite w.meta w.db now) ++ sessionCandidates ws now := by
      simp [sessionCandidates]
    rw [hcand, fileLoop_eq, dbLoop_eq, ih]
    rw [dedupFirstWins_append, dedupFirstWins_append, seenAfter_append]
    simp

/-- The aggregate list is exactly first-wins dedup over the candidate
stream. -/
theorem aggregateSessions_eq (inputs : List WorkspaceInput) (now : Int) :
    aggregateSessions inputs now = dedupFirstWins [] (sessionCandidates inputs now) := by
  rw [aggregateSessions, aggLoop_eq]
  rfl

theorem insertByMtime_perm (x : ChatSession) (l : List ChatSession) :
    List.Perm (insertByMtime x l) (x :: l) := by
  induction l with
  | nil => exact List.Perm.refl _
  | cons y ys ih =>
    rw [insertByMtime]
    split
    · exact (ih.cons y).trans (List.Perm.swap x y ys)
    · exact List.Perm.refl _

theorem sortByMtimeDesc_perm (l : List ChatSession) : List.Perm (sortByMtimeDesc l) l := by
  induction l with
  | nil => exact List.Perm.refl _
  | cons x xs ih => exact (insertByMtime_perm x _).trans (ih.cons x)

theorem insertByMtime_pairwise {x : ChatSession} {l : List ChatSession}
    (h : l.Pairwise (fun a b => sortKey b ≤ sortKey a)) :
    (insertByMtime x l).Pairwise (fun a b => sortKey b ≤ sortKey a) := by
  induction l with
  | nil => simp [insertByMtime]
  | cons y ys ih =>
    rw [insertByMtime]
    rw [List.pairwise_cons] at h
    split
    · rename_i hgt
      refine List.pairwise_cons.mpr ⟨?_, ih h.2⟩
      intro z hz
      have hz' := (insertByMtime_perm x ys).mem_iff.mp hz
      rcases List.mem_cons.mp hz' with rfl | hmem
      · exact le_of_lt hgt
      · exact h.1 z hmem
    · rename_i hle
      push_neg at hle
      refine List.pairwise_cons.mpr ⟨?_, List.pairwise_cons.mpr h⟩
      intro z hz
      rcases List.mem_cons.mp hz with rfl | hmem
      · exact hle
      · exact le_trans (h.1 z hmem) hle

theorem sortByMtimeDesc_pairwise (l : List ChatSession) :
    (sortByMtimeDesc l).Pairwise (fun a b => sortKey b ≤ sortKey a) := by
  induction l with
  | nil => exact List.Pairwise.nil
  | cons x xs ih => exact insertByMtime_pairwise ih

theorem insertByMtime_filter_key (x : ChatSession) (l : List ChatSession) (k : Int) :
    (insertByMtime x l).filter (fun s => sortKey s == k) =
      (x :: l).filter (fun s => sortKey s == k) := by
  induction l with
  | nil => rfl
  | cons y ys ih =>
    rw [insertByMtime]
    split
    · rename_i hgt
      by_cases hx : (sortKey x == k) = true
      · by_cases hy : (sortKey y == k) = true
        · exfalso
          have hx' : sortKey x = k := beq_iff_eq.mp hx
          have hy' : sortKey y = k := beq_iff_eq.mp hy
          rw [hx', hy'] at hgt
          exact lt_irrefl k hgt
        · simp [List.filter_cons, ih, hx, hy]
      · by_cases hy : (sortKey y == k) = true
        · simp [List.filter_cons, ih, hx, hy]
        · simp [List.filter_cons, ih, hx, hy]
    · rfl

theorem sortByMtimeDesc_filter_key (l : List ChatSession) (k : Int) :
    (sortByMtimeDesc l).filter (fun s => sortKey s == k) =
      l.filter (fun s => sortKey s == k) := by
  induction l with
  | nil => rfl
  | cons x xs ih =>
    rw [sortByMtimeDesc, insertByMtime_filter_key, List.filter_cons, List.filter_cons, ih]

theorem mapSomeEqOk {e : Except Unit ChatSession} {o : Option ChatSession}
    (h : (some <$> e) = .ok o) : ∃ s, e = .ok s ∧ o = some s := by
  cases e with
  | error err => simp [Functor.map, Except.map] at h
  | ok s => exact ⟨s, rfl, by simpa [Functor.map, Except.map] using h.symm⟩

theorem createSessionFromData_ok_messages {data : Json} {msgs : List ChatMessage}
    {w : WorkspaceMeta} {sid : String} {now : Int} {s : ChatSession}
    (h : createSessionFromData data msgs w sid now = .ok s) : s.messages = msgs := by
  unfold createSessionFromData at h
  obtain ⟨t, ht, h2⟩ := bindEqOk h
  simp only [Except.ok.injEq] at h2
  rw [← h2]

theorem dbBuild_ok_some {d : Json} {w : WorkspaceMeta} {sid : String} {now : Int}
    {s0 : ChatSession}
    (h : (do
        let messages ← parseMessages d
        if messages.length > 0 then some <$> createSessionFromData d messages w sid now
        else pure none) = Except.ok (some s0)) :
    0 < s0.messages.length := by
  obtain ⟨msgs, hm, h2⟩ := bindEqOk h
  split at h2
  · rename_i hlen
    obtain ⟨s1, hs1, he⟩ := mapSomeEqOk h2
    simp only [Option.some.injEq] at he
    subst he
    rw [createSessionFromData_ok_messages hs1]
    exact hlen
  · simp [pure, Except.pure] at h2

theorem processDbArray_nonempty (w : WorkspaceMeta) (now : Int) :
    ∀ (i : Nat) (ds : List Json) (s : ChatSession),
      s ∈ processDbArray w now i ds → 0 < s.messages.length := by
  intro i ds
  induction ds generalizing i with
  | nil => intro s hs; simp [processDbArray] at hs
  | cons d rest ih =>
    intro s hs
    rw [processDbArray] at hs
    split at hs
    · split at hs
      · simp at hs
      · exact ih _ s hs
      · rcases List.mem_cons.mp hs with rfl | hmem
        · rename_i heq
          exact dbBuild_ok_some heq
        · exact ih _ s hmem
    · exact ih _ s hs

theorem processDbSessionsMap_nonempty (w : WorkspaceMeta) (now : Int) :
    ∀ (entries : List (String × Json)) (s : ChatSession),
      s ∈ processDbSessionsMap w now entries → 0 < s.messages.length := by
  intro entries
  induction entries with
  | nil => intro s hs; simp [processDbSessionsMap] at hs
  | cons e rest ih =>
    intro s hs
    rw [processDbSessionsMap] at hs
    split at hs
    · split at hs
      · simp at hs
      · exact ih s hs
      · rcases List.mem_cons.mp hs with rfl | hmem
        · rename_i heq
          exact dbBuild_ok_some heq
        · exact ih s hmem
    · exact ih s hs

theorem dbElseBranch_nonempty (data : Json) (w : WorkspaceMeta) (now : Int)
    (s : ChatSession) (hs : s ∈ dbElseBranch data w now) : 0 < s.messages.length := by
  rw [dbElseBranch] at hs
  split at hs
  · simp at hs
  · simp at hs
  · rename_i heq
    rcases List.mem_singleton.mp hs with rfl
    exact dbBuild_ok_some heq

theorem processDbEntry_nonempty (data : Json) (w : WorkspaceMeta) (now : Int)
    (s : ChatSession) (hs : s ∈ processDbEntry data w now) : 0 < s.messages.length := by
  rw [processDbEntry] at hs
  split at hs
  · simp at hs
  · split at hs
    · exact processDbArray_nonempty w now 0 _ s hs
    · split at hs
      · cases hv : getF data "sessions" with
        | none =>
          rw [hv] at hs
          exact dbElseBranch_nonempty data w now s hs
        | some sv =>
          rw [hv] at hs
          replace hs : s ∈ (if truthy sv then
              (if isTypeofObject sv && !isArray sv then
                processDbSessionsMap w now (objFields sv) else [])
            else dbElseBranch data w now) := hs
          split at hs
          · split at hs
            · exact processDbSessionsMap_nonempty w now _ s hs
            · simp at hs
          · exact dbElseBranch_nonempty data w now s hs
      · simp at hs

theorem extractSessionsFromSqlite_nonempty (w : WorkspaceMeta)
    (db : Option (List DbRow)) (now : Int) (s : ChatSession)
    (hs : s ∈ extractSessionsFromSqlite w db now) : 0 < s.messages.length := by
  match db with
  | none => simp [extractSessionsFromSqlite] at hs
  | some rows =>
    rw [extractSessionsFromSqlite] at hs
    obtain ⟨l, hl, hsl⟩ := List.mem_flatten.mp hs
    obtain ⟨r, hr, hrl⟩ := List.mem_map.mp hl
    subst hrl
    split at hsl
    · simp at hsl
    · exact processDbEntry_nonempty _ w now s hsl

theorem sessionCandidates_nonempty (inputs : List WorkspaceInput) (now : Int)
    (s : ChatSession) (hs : s ∈ sessionCandidates inputs now) : s.messages ≠ [] := by
  rw [sessionCandidates] at hs
  obtain ⟨l, hl, hsl⟩ := List.mem_flatten.mp hs
  obtain ⟨w, hw, hwl⟩ := List.mem_map.mp hl
  subst hwl
  rcases List.mem_append.mp hsl with hfile | hdb
  · have := List.of_mem_filter hfile
    intro hnil
    simp [hnil] at this
  · have := extractSessionsFromSqlite_nonempty w.meta w.db now s hdb
    intro hnil
    rw [hnil] at this
    simp at this

/-- Claim C1: `getAllSessions` keeps at most one session per (`===`)
session id — the output is pairwise id-distinct — and the pre-sort
aggregate is exactly first-wins deduplication over the candidate stream:
when several candidates share an id, the first in aggregation order
(workspace order, files before the database within a workspace) is kept
and every later one is dropped, regardless of source. -/
theorem c1_dedup_first_wins (inputs : List WorkspaceInput) (now : Int) :
    (getAllSessions inputs now).Pairwise
      (fun a b => jsSame a.sessionId b.sessionId = false) ∧
    aggregateSessions inputs now = dedupFirstWins [] (sessionCandidates inputs now) := by
  refine ⟨?_, aggregateSessions_eq inputs now⟩
  have hperm := sortByMtimeDesc_perm (aggregateSessions inputs now)
  have hpair : (aggregateSessions inputs now).Pairwise
      (fun a b => jsSame a.sessionId b.sessionId = false) := by
    rw [aggregateSessions_eq]
    exact dedupFirstWins_pairwise [] _
  exact (hperm.pairwise_iff
    (fun {a b} h => by rw [jsSame_symm]; exact h)).mpr hpair

/-- Claim C2: every session in the `getAllSessions` output has at least
one message, and an empty session never occupies an id slot: every
candidate (the candidate stream already excludes empty file sessions
before dedup bookkeeping, and database sessions are non-empty by
construction) has its id represented in the output, so a later non-empty
session is still admitted after an empty one with the same id. -/
theorem c2_nonempty_and_no_slot_for_empty (inputs : List WorkspaceInput) (now : Int) :
    (∀ s ∈ getAllSessions inputs now, s.messages ≠ []) ∧
    (∀ c ∈ sessionCandidates inputs now,
      ∃ s ∈ getAllSessions inputs now, s.sessionId = c.sessionId) := by
  have hperm := sortByMtimeDesc_perm (aggregateSessions inputs now)
  constructor
  · intro s hs
    have hs' : s ∈ aggregateSessions inputs now := hperm.mem_iff.mp hs
    rw [aggregateSessions_eq] at hs'
    exact sessionCandidates_nonempty inputs now s (mem_dedupFirstWins hs').1
  · intro c hc
    have hseen : seenHas [] c.sessionId = false := rfl
    obtain ⟨s, hs, he⟩ := dedupFirstWins_complete [] hc hseen
    refine ⟨s, ?_, he⟩
    rw [← aggregateSessions_eq inputs now] at hs
    exact hperm.mem_iff.mpr hs

/-- Claim C3: the output of `getAllSessions` is sorted by
`modifiedAt || 0` descending, and the sort is stable: for every key
value, the output's sessions with that key are exactly the aggregate's
sessions with that key, in their aggregation order. -/
theorem c3_sorted_desc_stable (inputs : List WorkspaceInput) (now : Int) :
    (getAllSessions inputs now).Pairwise (fun a b => sortKey b ≤ sortKey a) ∧
    ∀ k : Int, (getAllSessions inputs now).filter (fun s => sortKey s == k) =
      (aggregateSessions inputs now).filter (fun s => sortKey s == k) :=
  ⟨sortByMtimeDesc_pairwise _, fun k => sortByMtimeDesc_filter_key _ k⟩

/-- Claim C7: a store that cannot be opened (file absent, driver
unavailable, locked, corrupt — all absorbed by the surrounding
`try`/`catch`) yields the empty session list for that workspace, and a
row whose value fails to JSON-decode is skipped without aborting the scan
of the remaining rows. -/
theorem c7_sqlite_soft_fail (w : WorkspaceMeta) (now : Int) :
    extractSessionsFromSqlite w none now = [] ∧
    ∀ (rows1 rows2 : List DbRow) (k : String),
      extractSessionsFromSqlite w (some (rows1 ++ ⟨k, none⟩ :: rows2)) now =
        extractSessionsFromSqlite w (some (rows1 ++ rows2)) now := by
  refine ⟨rfl, ?_⟩
  intro rows1 rows2 k
  rw [extractSessionsFromSqlite, extractSessionsFromSqlite]
  by_cases hk : keyLikeChat k = true <;>
    simp [hk, List.filter_append, List.filter_cons, List.map_append, List.flatten_append]

set_option maxRecDepth 10000 in
/-- Witness for C2: one workspace with one non-empty transcript file; the
candidate session is admitted, so the output contains a session with its
id. -/
theorem c2_witness :
    ∃ s ∈ getAllSessions
      [{ meta := ⟨"w1", none, none⟩,
         files := [⟨"/s/a.json", "a",
           some (Json.obj [("messages", Json.arr
             [Json.obj [("role", Json.str "user"), ("content", Json.str "m1")]])]),
           some 10⟩],
         db := none }] 5, s.sessionId = Json.str "a" :=
  (c2_nonempty_and_no_slot_for_empty _ 5).2
    { sessionId := Json.str "a", title := Json.str "m1",
      messages := [⟨Role.user, Json.str "m1", none, none, none,
        some (Json.obj [("role", Json.str "user"), ("content", Json.str "m1")])⟩],
      workspaceId := "w1", workspaceName := "Workspace " ++ "w1".take 8 ++ "...",
      projectPath := none, createdAt := none, modifiedAt := some 10, model := none,
      agentMode := none, source := Source.json, filePath := some "/s/a.json" }
    (List.mem_singleton.mpr rfl)
